import Mathlib

/-!
Verification of the Tailscale → ControlD DNS sync program
(`tailscale_controld_sync.py`).

The development shallowly embeds the program's pure logic:

* Python dicts (which preserve insertion order and overwrite values in
  place) are modelled as association lists `SDict α` with `ainsert` /
  `alookup`.
* The string operations used by the program (`split('.',1)[0]`,
  `lower()`, `strip()`, `startswith`) are modelled on the underlying
  character lists so that everything reduces by `decide` / `rfl`.
* Network side effects are modelled by oracles: a `store : Op → Bool`
  oracle gives the success/failure of each mutating ControlD call, and a
  `writeOk : Bool` oracle gives the success of the backup file write.
-/

/-- Association list keyed by strings: the model of a Python `dict`
(insertion order preserved, value overwritten in place on re-insert). -/
abbrev SDict (α : Type) := List (String × α)

/-- Python `d[k] = v`: overwrite the value of an existing key in place,
otherwise append the binding at the end. -/
def ainsert {α : Type} : SDict α → String → α → SDict α
  | [], k, v => [(k, v)]
  | p :: l, k, v => if p.1 = k then (k, v) :: l else p :: ainsert l k v

/-- Python `d.get(k)` / `k in d`: first binding of the key, if any. -/
def alookup {α : Type} : SDict α → String → Option α
  | [], _ => none
  | p :: l, k => if p.1 = k then some p.2 else alookup l k

/-! ### String helpers

The program uses `raw_name.split('.', 1)[0]`, `.lower()`, `.strip()`
and `.startswith(...)`; these are modelled on the character lists of the
strings so that they evaluate by kernel reduction. -/

/-- Model of Python `s.split('.', 1)[0]`: the characters before the
first `'.'` (the whole string when it has no dot). -/
def firstLabel (s : String) : String :=
  String.mk (s.data.takeWhile (fun c => ¬ c = '.'))

/-- Model of Python `s.lower()` (ASCII case folding, as used on
hostnames). -/
def strLower (s : String) : String :=
  String.mk (s.data.map Char.toLower)

/-- Model of Python `s.strip()`: drop whitespace from both ends. -/
def strTrim (s : String) : String :=
  String.mk (((s.data.dropWhile Char.isWhitespace).reverse.dropWhile
    Char.isWhitespace).reverse)

/-- Model of Python `s.startswith(p)`. -/
def strStarts (s p : String) : Bool :=
  p.data.isPrefixOf s.data

/-! ### Inventory data (Tailscale fetch results)

A device as consumed by `get_tailscale_records`: `node.get('name', '')`
is modelled by a plain string (absent ↦ `""`), while
`node.get('addresses', [''])` must distinguish an absent key (Python
falls back to `['']`) from a present-but-empty list (Python raises
`IndexError` on `[0]`), hence an `Option (List String)`. -/
structure Device where
  name : String
  addresses : Option (List String)
deriving DecidableEq, Repr

/-- A service as consumed by `get_tailscale_records` (after
`get_tailscale_services` has canonicalised the name): `svc.get('name','')`
and `svc.get('addrs', [])`. -/
structure Service where
  name : String
  addrs : List String
deriving DecidableEq, Repr

/-- The suffix loop shared by the node and service branches:
`for suffix in DNS_SUFFIXES: suffix = suffix.strip(); if suffix:
d[f"{name}.{suffix}"] = ip`. -/
def addSuffixed (sfx : List String) (nm ip : String) (d : SDict String) : SDict String :=
  sfx.foldl (fun acc s =>
    let s2 := strTrim s
    if s2 = "" then acc else ainsert acc (nm ++ "." ++ s2) ip) d

/-- One iteration of the node loop of `get_tailscale_records`
(lines 108–123).  Returns `none` when Python would raise `IndexError`
(`node.get('addresses', [''])[0]` with a present-but-empty list). -/
def addNode (bare : Bool) (sfx : List String) (d : SDict String) (node : Device) :
    Option (SDict String) :=
  let raw_name := node.name
  let device_name := if raw_name = "" then "" else strLower (firstLabel raw_name)
  let ipRes : Option String :=
    match node.addresses with
    | none => some ""
    | some [] => none
    | some (a :: _) => some a
  match ipRes with
  | none => none
  | some ip =>
    if device_name = "" ∨ ip = "" then some d
    else
      let d1 := if bare then ainsert d device_name ip else d
      some (addSuffixed sfx device_name ip d1)

/-- The node loop, in input order. -/
def addNodes (bare : Bool) (sfx : List String) : SDict String → List Device →
    Option (SDict String)
  | d, [] => some d
  | d, n :: ns =>
    match addNode bare sfx d n with
    | none => none
    | some d' => addNodes bare sfx d' ns

/-- One iteration of the service loop of `get_tailscale_records`
(lines 126–141): `service.get('name','').lower()`,
`addrs[0] if addrs else ''`. -/
def addService (bare : Bool) (sfx : List String) (d : SDict String) (svc : Service) :
    SDict String :=
  let service_name := strLower svc.name
  let ip := match svc.addrs with | [] => "" | a :: _ => a
  if service_name = "" ∨ ip = "" then d
  else
    let d1 := if bare then ainsert d service_name ip else d
    addSuffixed sfx service_name ip d1

/-- `get_tailscale_records` (lines 96–143), as a function of the fetched
node and service lists: builds the desired hostname → address dict.
`none` models the run aborting with an uncaught `IndexError`. -/
def get_tailscale_records (bare : Bool) (sfx : List String)
    (nodes : List Device) (services : List Service) : Option (SDict String) :=
  match addNodes bare sfx [] nodes with
  | none => none
  | some d => some (services.foldl (addService bare sfx) d)

/-! ### ControlD side: rules, operations and the reconciler -/

/-- A rule as returned by `get_controld_records`: `rule.get('PK')`
(`none` = key absent), the `hostnames` array (which the sync code never
reads), and `rule.get('action', {}).get('via', '')`. -/
structure CtrlRule where
  PK : Option String
  hostnames : List String
  via : String
deriving DecidableEq, Repr

/-- An entry of the reconciler's `existing_map`:
`{'id': hostname, 'ip': ip}` (lines 337–340). -/
structure ExistingInfo where
  id : String
  ip : String
deriving DecidableEq, Repr

/-- A mutating ControlD call with its arguments. -/
inductive Op where
  | create (hostname ip folder_id : String)
  | update (rule_id hostname ip folder_id : String)
  | delete (rule_id hostname : String)
deriving DecidableEq, Repr

def Op.isCreate : Op → Bool
  | .create _ _ _ => true
  | _ => false

def Op.isUpdate : Op → Bool
  | .update _ _ _ _ => true
  | _ => false

def Op.isDelete : Op → Bool
  | .delete _ _ => true
  | _ => false

/-- The hostname argument of a mutating call. -/
def Op.hostname : Op → String
  | .create h _ _ => h
  | .update _ h _ _ => h
  | .delete _ h => h

/-- `create_controld_record` (lines 199–223).  `store` is the oracle for
the HTTP POST outcome; the returned list is the store traffic (empty in
dry-run mode, where the function returns `True` immediately). -/
def create_controld_record (store : Op → Bool) (hostname ip folder_id : String)
    (dry_run : Bool) : Bool × List Op :=
  if dry_run then (true, [])
  else (store (.create hostname ip folder_id), [.create hostname ip folder_id])

/-- `update_controld_record` (lines 226–250). -/
def update_controld_record (store : Op → Bool) (rule_id hostname ip folder_id : String)
    (dry_run : Bool) : Bool × List Op :=
  if dry_run then (true, [])
  else (store (.update rule_id hostname ip folder_id),
        [.update rule_id hostname ip folder_id])

/-- `delete_controld_record` (lines 253–267). -/
def delete_controld_record (store : Op → Bool) (rule_id hostname : String)
    (dry_run : Bool) : Bool × List Op :=
  if dry_run then (true, [])
  else (store (.delete rule_id hostname), [.delete rule_id hostname])

/-- Counts reported by `sync_dns_records`, plus the store traffic. -/
structure SyncResult where
  created : Nat
  updated : Nat
  deleted : Nat
  trace : List Op
deriving DecidableEq, Repr

/-- One iteration of the create-or-update loop (lines 350–362). -/
def cu_step (dry_run : Bool) (store : Op → Bool) (existing_map : SDict ExistingInfo)
    (folder_id : String) (acc : SyncResult) (p : String × String) : SyncResult :=
  match alookup existing_map p.1 with
  | some existing_rule =>
    if existing_rule.ip ≠ p.2 then
      let r := update_controld_record store existing_rule.id p.1 p.2 folder_id dry_run
      { acc with updated := acc.updated + (if r.1 then 1 else 0),
                 trace := acc.trace ++ r.2 }
    else acc
  | none =>
    let r := create_controld_record store p.1 p.2 folder_id dry_run
    { acc with created := acc.created + (if r.1 then 1 else 0),
               trace := acc.trace ++ r.2 }

/-- One iteration of the delete loop (lines 365–369). -/
def del_step (dry_run : Bool) (store : Op → Bool) (desired : SDict String)
    (acc : SyncResult) (q : String × ExistingInfo) : SyncResult :=
  if alookup desired q.1 = none then
    let r := delete_controld_record store q.2.id q.1 dry_run
    { acc with deleted := acc.deleted + (if r.1 then 1 else 0),
               trace := acc.trace ++ r.2 }
  else acc

/-- The reconciliation core of `sync_dns_records` (lines 342–369): the
create/update pass over `desired_records` followed by the delete pass
over `existing_map`. -/
def sync_loop (dry_run : Bool) (store : Op → Bool) (desired : SDict String)
    (existing_map : SDict ExistingInfo) (folder_id : String) : SyncResult :=
  let r := desired.foldl (cu_step dry_run store existing_map folder_id) ⟨0, 0, 0, []⟩
  existing_map.foldl (del_step dry_run store desired) r

/-- `existing_map` construction (lines 326–340): keyed by `rule.get('PK')`,
skipping falsy PKs, with `id` set to that same hostname and `ip` from
`action.via`.  The rule's `hostnames` array is not consulted. -/
def build_existing_map (rules : List CtrlRule) : SDict ExistingInfo :=
  rules.foldl (fun m r =>
    match r.PK with
    | none => m
    | some h => if h = "" then m else ainsert m h ⟨h, r.via⟩) []

/-- The mutating operation a single desired entry gives rise to
(the body of the create-or-update loop, without counting). -/
def cu_op (existing_map : SDict ExistingInfo) (folder_id : String)
    (p : String × String) : List Op :=
  match alookup existing_map p.1 with
  | some er => if er.ip ≠ p.2 then [.update er.id p.1 p.2 folder_id] else []
  | none => [.create p.1 p.2 folder_id]

/-- The deletion a single existing entry gives rise to. -/
def del_op (desired : SDict String) (q : String × ExistingInfo) : List Op :=
  if alookup desired q.1 = none then [.delete q.2.id q.1] else []

/-- The sequence of mutating operations the reconciler attempts, in
order: creates/updates in `desired` iteration order, then deletes in
`existing_map` iteration order. -/
def syncOps (desired : SDict String) (existing_map : SDict ExistingInfo)
    (folder_id : String) : List Op :=
  desired.flatMap (cu_op existing_map folder_id) ++
    existing_map.flatMap (del_op desired)

/-- Effective result of one mutating call: in dry-run mode every call
returns `True` without consulting the store. -/
def effSucc (dry_run : Bool) (store : Op → Bool) (op : Op) : Bool :=
  if dry_run then true else store op

/-! ### Configuration, validation and backup -/

/-- The configuration variables imported from `config.py`. -/
structure Config where
  TAILSCALE_API_KEY : String
  TAILSCALE_TAILNET_ID : String
  CONTROLD_API_TOKEN : String
  CONTROLD_PROFILE_ID : String
  CONTROLD_FOLDER_NAME : String
  DNS_SUFFIXES : List String
  CREATE_BARE_HOSTNAME : Bool
deriving DecidableEq, Repr

/-- The per-variable test of `validate_config` (line 47):
`not value or value.startswith('your-') or value.startswith('tskey-api-xxxxx')`. -/
def badValue (v : String) : Bool :=
  v = "" || strStarts v "your-" || strStarts v "tskey-api-xxxxx"

/-- `validate_config` (lines 36–54): the list of missing/placeholder
variable names, in the iteration order of `required_vars`.  The program
calls `sys.exit(1)` exactly when this list is non-empty.  Note that only
these four variables are checked. -/
def validate_config (c : Config) : List String :=
  (if badValue c.TAILSCALE_API_KEY then ["TAILSCALE_API_KEY"] else []) ++
  (if badValue c.TAILSCALE_TAILNET_ID then ["TAILSCALE_TAILNET_ID"] else []) ++
  (if badValue c.CONTROLD_API_TOKEN then ["CONTROLD_API_TOKEN"] else []) ++
  (if badValue c.CONTROLD_PROFILE_ID then ["CONTROLD_PROFILE_ID"] else [])

/-- `create_backup` (lines 270–290): builds the timestamped filename and
attempts the file write, whose success is given by the `writeOk` oracle.
The Python `except Exception` handler means a failed write returns
`None` (after a printed warning) instead of raising. -/
def create_backup (writeOk : Bool) (timestamp : String)
    (existing_rules : List CtrlRule) (folder_id : String) : Option String :=
  let filename := "controld_backup_" ++ timestamp ++ ".json"
  let _backup_data := (timestamp, folder_id, existing_rules)
  if writeOk then some filename else none

/-- Result of a full `sync_dns_records` run that passed config
validation: whether/how the backup was attempted, and the
reconciliation outcome. -/
structure FullResult where
  backup : Option (Option String)
  recon : SyncResult
deriving DecidableEq, Repr

/-- `sync_dns_records` (lines 293–383), modelled from the validation
gate onwards with the fetched data passed in: `none` models the
`sys.exit(1)` taken on a failed validation, before any network call.
In live mode with existing rules, the backup is written (lines 318–320)
before the reconciliation loops run. -/
def sync_dns_records (c : Config) (dry_run : Bool) (store : Op → Bool)
    (writeOk : Bool) (timestamp : String) (desired_records : SDict String)
    (existing_rules : List CtrlRule) (folder_id : String) : Option FullResult :=
  if validate_config c = [] then
    let backup :=
      if ¬ dry_run ∧ existing_rules ≠ [] then
        some (create_backup writeOk timestamp existing_rules folder_id)
      else none
    let existing_map := build_existing_map existing_rules
    some ⟨backup, sync_loop dry_run store desired_records existing_map folder_id⟩
  else none

/-! ### Insertion-sequence view of `get_tailscale_records`

For the last-write-wins property we also describe the builder as a fold
of single insertions over the flat sequence of (hostname, address)
pairs it generates — devices first, then services, each in input order,
with the bare entry (if any) before the suffixed entries. -/

/-- A single dict insertion `d[p.1] = p.2`. -/
def insPair (d : SDict String) (p : String × String) : SDict String :=
  ainsert d p.1 p.2

/-- The (hostname, address) insertions contributed by one device, in
program order; `none` when the device would raise `IndexError`. -/
def nodePairs (bare : Bool) (sfx : List String) (node : Device) :
    Option (List (String × String)) :=
  let raw_name := node.name
  let device_name := if raw_name = "" then "" else strLower (firstLabel raw_name)
  let ipRes : Option String :=
    match node.addresses with
    | none => some ""
    | some [] => none
    | some (a :: _) => some a
  match ipRes with
  | none => none
  | some ip =>
    if device_name = "" ∨ ip = "" then some []
    else
      some ((if bare then [(device_name, ip)] else []) ++
        sfx.filterMap (fun s =>
          let s2 := strTrim s
          if s2 = "" then none else some (device_name ++ "." ++ s2, ip)))

/-- The insertions contributed by one service, in program order. -/
def servicePairs (bare : Bool) (sfx : List String) (svc : Service) :
    List (String × String) :=
  let service_name := strLower svc.name
  let ip := match svc.addrs with | [] => "" | a :: _ => a
  if service_name = "" ∨ ip = "" then []
  else
    (if bare then [(service_name, ip)] else []) ++
      sfx.filterMap (fun s =>
        let s2 := strTrim s
        if s2 = "" then none else some (service_name ++ "." ++ s2, ip))

/-- The insertions of all devices, in input order. -/
def nodesPairs (bare : Bool) (sfx : List String) : List Device →
    Option (List (String × String))
  | [] => some []
  | n :: ns =>
    match nodePairs bare sfx n, nodesPairs bare sfx ns with
    | some l, some ls => some (l ++ ls)
    | _, _ => none

/-- The full insertion sequence of `get_tailscale_records`: all device
insertions (input order) followed by all service insertions (input
order). -/
def desiredPairs (bare : Bool) (sfx : List String) (nodes : List Device)
    (services : List Service) : Option (List (String × String)) :=
  match nodesPairs bare sfx nodes with
  | none => none
  | some l => some (l ++ services.flatMap (servicePairs bare sfx))

/-! ### Store model for convergence

For the idempotence claim we model the folder contents as a map from
rule id (= PK) to spoofed address.  A successful create stores the rule
under the hostname — ControlD keys these rules by hostname, which is
exactly what `build_existing_map` observes (`PK` = hostname, claim
C10); update rewrites the addressed rule; delete removes it. -/

/-- Effect of one successful mutating call on the folder contents. -/
def apply_op (s : SDict String) : Op → SDict String
  | .create h ip _ => ainsert s h ip
  | .update rid _ ip _ => ainsert s rid ip
  | .delete rid _ => s.filter (fun p => decide (¬ p.1 = rid))

/-- The folder contents after an apply-mode run in which every
attempted operation succeeded, starting from the fetched rules. -/
def store_after (desired : SDict String) (existing_map : SDict ExistingInfo)
    (folder_id : String) : SDict String :=
  (syncOps desired existing_map folder_id).foldl apply_op
    (existing_map.map (fun q => (q.1, q.2.ip)))

/-- The `existing_map` a second run would build from the store: each
rule is fetched with its PK as id and hostname (claim C10). -/
def refetched_map (s : SDict String) : SDict ExistingInfo :=
  s.map (fun q => (q.1, ⟨q.1, q.2⟩))

/-! ### Lemmas about the dictionary model -/

theorem alookup_ainsert {α : Type} (l : SDict α) (k : String) (v : α) (k' : String) :
    alookup (ainsert l k v) k' = if k = k' then some v else alookup l k' := by
  induction l with
  | nil => simp [ainsert, alookup]
  | cons p l ih =>
    simp only [ainsert]
    by_cases hpk : p.1 = k
    · by_cases hkk : k = k'
      · simp [alookup, hpk, hkk]
      · have hpk' : ¬ p.1 = k' := fun h => hkk (hpk ▸ h)
        simp [alookup, hpk, hkk, hpk']
    · by_cases hpk' : p.1 = k'
      · have hkk : ¬ k = k' := fun h => hpk (h ▸ hpk')
        rw [if_neg hpk]
        simp [alookup, hpk', hkk]
      · simp [alookup, hpk, hpk', ih]

theorem alookup_mem {α : Type} {l : SDict α} {k : String} {v : α}
    (h : alookup l k = some v) : (k, v) ∈ l := by
  induction l with
  | nil => simp [alookup] at h
  | cons p l ih =>
    by_cases hpk : p.1 = k
    · simp only [alookup, hpk, if_pos] at h
      have : p = (k, v) := by
        cases p
        simp only [Option.some.injEq] at h
        simp_all
      exact this ▸ List.mem_cons_self _ _
    · simp only [alookup, hpk, if_neg, not_false_iff] at h
      exact List.mem_cons_of_mem _ (ih h)

theorem mem_alookup_isSome {α : Type} {l : SDict α} {p : String × α}
    (h : p ∈ l) : ∃ v, alookup l p.1 = some v := by
  induction l with
  | nil => simp at h
  | cons q l ih =>
    by_cases hq : q.1 = p.1
    · exact ⟨q.2, by simp [alookup, hq]⟩
    · rcases List.mem_cons.mp h with h1 | h1
      · exact absurd (h1 ▸ rfl) hq
      · simpa [alookup, hq] using ih h1

theorem alookup_of_mem_nodup {α : Type} {l : SDict α} {p : String × α}
    (hnd : (l.map Prod.fst).Nodup) (h : p ∈ l) : alookup l p.1 = some p.2 := by
  induction l with
  | nil => simp at h
  | cons q l ih =>
    rw [List.map_cons, List.nodup_cons] at hnd
    rcases List.mem_cons.mp h with h1 | h1
    · subst h1; simp [alookup]
    · have hq : ¬ q.1 = p.1 := fun he =>
        hnd.1 (he ▸ (List.mem_map.mpr ⟨p, h1, rfl⟩))
      simp only [alookup, hq, if_neg, not_false_iff]
      exact ih hnd.2 h1

theorem alookup_eq_none {α : Type} {l : SDict α} {k : String} :
    alookup l k = none ↔ ∀ p ∈ l, ¬ p.1 = k := by
  induction l with
  | nil => simp [alookup]
  | cons q l ih =>
    by_cases hq : q.1 = k <;> simp [alookup, hq, ih]

/-! ### Characterisation of the reconciliation loops -/

theorem mem_cu_op {e : SDict ExistingInfo} {f : String} {p : String × String}
    {op : Op} :
    op ∈ cu_op e f p ↔
      (alookup e p.1 = none ∧ op = .create p.1 p.2 f) ∨
      (∃ er, alookup e p.1 = some er ∧ er.ip ≠ p.2 ∧ op = .update er.id p.1 p.2 f) := by
  unfold cu_op
  rcases h : alookup e p.1 with _ | er
  · simp
  · by_cases hip : er.ip ≠ p.2 <;> simp [hip]

theorem mem_del_op {d : SDict String} {q : String × ExistingInfo} {op : Op} :
    op ∈ del_op d q ↔ alookup d q.1 = none ∧ op = .delete q.2.id q.1 := by
  unfold del_op
  by_cases h : alookup d q.1 = none <;> simp [h]

theorem cu_step_eq (dry_run : Bool) (store : Op → Bool) (e : SDict ExistingInfo)
    (f : String) (acc : SyncResult) (p : String × String) :
    cu_step dry_run store e f acc p =
      { acc with
        created := acc.created + (cu_op e f p).countP
          (fun op => op.isCreate && effSucc dry_run store op),
        updated := acc.updated + (cu_op e f p).countP
          (fun op => op.isUpdate && effSucc dry_run store op),
        trace := acc.trace ++ (if dry_run then [] else cu_op e f p) } := by
  unfold cu_step cu_op create_controld_record update_controld_record effSucc
  rcases h : alookup e p.1 with _ | er
  · cases dry_run <;>
      simp [List.countP_cons, Op.isCreate, Op.isUpdate]
  · by_cases hip : er.ip ≠ p.2
    · cases dry_run <;>
        simp [hip, List.countP_cons, Op.isCreate, Op.isUpdate]
    · cases dry_run <;> simp [hip]

theorem del_step_eq (dry_run : Bool) (store : Op → Bool) (d : SDict String)
    (acc : SyncResult) (q : String × ExistingInfo) :
    del_step dry_run store d acc q =
      { acc with
        deleted := acc.deleted + (del_op d q).countP
          (fun op => op.isDelete && effSucc dry_run store op),
        trace := acc.trace ++ (if dry_run then [] else del_op d q) } := by
  unfold del_step del_op delete_controld_record effSucc
  by_cases h : alookup d q.1 = none
  · cases dry_run <;> simp [h, List.countP_cons, Op.isDelete]
  · cases dry_run <;> simp [h]

theorem cu_foldl_spec (dry_run : Bool) (store : Op → Bool) (e : SDict ExistingInfo)
    (f : String) (d : SDict String) :
    ∀ acc : SyncResult,
    d.foldl (cu_step dry_run store e f) acc =
      { created := acc.created + (d.flatMap (cu_op e f)).countP
          (fun op => op.isCreate && effSucc dry_run store op),
        updated := acc.updated + (d.flatMap (cu_op e f)).countP
          (fun op => op.isUpdate && effSucc dry_run store op),
        deleted := acc.deleted,
        trace := acc.trace ++ (if dry_run then [] else d.flatMap (cu_op e f)) } := by
  induction d with
  | nil => intro acc; cases dry_run <;> simp
  | cons p rest ih =>
    intro acc
    rw [List.foldl_cons, cu_step_eq, ih]
    cases dry_run <;>
      simp [List.countP_append, Nat.add_assoc, List.append_assoc]

theorem del_foldl_spec (dry_run : Bool) (store : Op → Bool) (d : SDict String)
    (e : SDict ExistingInfo) :
    ∀ acc : SyncResult,
    e.foldl (del_step dry_run store d) acc =
      { created := acc.created,
        updated := acc.updated,
        deleted := acc.deleted + (e.flatMap (del_op d)).countP
          (fun op => op.isDelete && effSucc dry_run store op),
        trace := acc.trace ++ (if dry_run then [] else e.flatMap (del_op d)) } := by
  induction e with
  | nil => intro acc; cases dry_run <;> simp
  | cons q rest ih =>
    intro acc
    rw [List.foldl_cons, del_step_eq, ih]
    cases dry_run <;>
      simp [List.countP_append, Nat.add_assoc, List.append_assoc]

theorem countP_eq_zero_of_shape {l : List Op} {g : Op → Bool}
    (h : ∀ op ∈ l, g op = false) : l.countP g = 0 :=
  List.countP_eq_zero.mpr (by intro op hop; simp [h op hop])

theorem cu_ops_no_delete {e : SDict ExistingInfo} {f : String} {d : SDict String}
    {op : Op} (h : op ∈ d.flatMap (cu_op e f)) : op.isDelete = false := by
  rcases List.mem_flatMap.mp h with ⟨p, _, hp⟩
  rcases mem_cu_op.mp hp with ⟨_, rfl⟩ | ⟨er, _, _, rfl⟩ <;> rfl

theorem del_ops_only_delete {d : SDict String} {e : SDict ExistingInfo} {op : Op}
    (h : op ∈ e.flatMap (del_op d)) : op.isDelete = true := by
  rcases List.mem_flatMap.mp h with ⟨q, _, hq⟩
  rcases mem_del_op.mp hq with ⟨_, rfl⟩
  rfl

/-- Master characterisation of the reconciliation core: each reported
count is the number of attempted operations of that kind whose call
succeeded, and the store traffic is empty in dry-run mode and exactly
the attempted operations in apply mode. -/
theorem sync_loop_spec (dry_run : Bool) (store : Op → Bool) (desired : SDict String)
    (existing_map : SDict ExistingInfo) (folder_id : String) :
    sync_loop dry_run store desired existing_map folder_id =
      { created := (syncOps desired existing_map folder_id).countP
          (fun op => op.isCreate && effSucc dry_run store op),
        updated := (syncOps desired existing_map folder_id).countP
          (fun op => op.isUpdate && effSucc dry_run store op),
        deleted := (syncOps desired existing_map folder_id).countP
          (fun op => op.isDelete && effSucc dry_run store op),
        trace := if dry_run then [] else syncOps desired existing_map folder_id } := by
  unfold sync_loop syncOps
  rw [cu_foldl_spec, del_foldl_spec]
  have hdelC : (existing_map.flatMap (del_op desired)).countP
      (fun op => op.isCreate && effSucc dry_run store op) = 0 :=
    countP_eq_zero_of_shape (fun op hop => by
      have := del_ops_only_delete hop
      cases op <;> simp_all [Op.isCreate, Op.isDelete])
  have hdelU : (existing_map.flatMap (del_op desired)).countP
      (fun op => op.isUpdate && effSucc dry_run store op) = 0 :=
    countP_eq_zero_of_shape (fun op hop => by
      have := del_ops_only_delete hop
      cases op <;> simp_all [Op.isUpdate, Op.isDelete])
  have hcuD : (desired.flatMap (cu_op existing_map folder_id)).countP
      (fun op => op.isDelete && effSucc dry_run store op) = 0 :=
    countP_eq_zero_of_shape (fun op hop => by
      have := cu_ops_no_delete hop
      simp_all)
  cases dry_run <;>
    simp [List.countP_append, hdelC, hdelU, hcuD]

/-! ### The builder as a fold of single insertions -/

theorem addSuffixed_eq (sfx : List String) (nm ip : String) :
    ∀ d, addSuffixed sfx nm ip d =
      (sfx.filterMap (fun s =>
        let s2 := strTrim s
        if s2 = "" then none else some (nm ++ "." ++ s2, ip))).foldl insPair d := by
  induction sfx with
  | nil => intro d; rfl
  | cons s rest ih =>
    intro d
    by_cases hs : strTrim s = ""
    · simpa [addSuffixed, List.filterMap_cons, hs] using ih d
    · simpa [addSuffixed, List.filterMap_cons, hs, insPair]
        using ih (ainsert d (nm ++ "." ++ strTrim s) ip)

theorem addNode_eq (bare : Bool) (sfx : List String) (d : SDict String) (node : Device) :
    addNode bare sfx d node =
      (nodePairs bare sfx node).map (fun l => l.foldl insPair d) := by
  obtain ⟨nm, addrs⟩ := node
  rcases addrs with _ | ⟨_ | ⟨a, as⟩⟩
  · by_cases h : (if nm = "" then "" else strLower (firstLabel nm)) = "" <;>
      simp [addNode, nodePairs, h]
  · rfl
  · simp only [addNode, nodePairs]
    generalize (if nm = "" then "" else strLower (firstLabel nm)) = dn
    by_cases h : dn = "" ∨ a = ""
    · simp [h]
    · cases bare <;> simp [h, addSuffixed_eq, insPair, List.foldl_cons]

theorem addNodes_eq (bare : Bool) (sfx : List String) :
    ∀ (nodes : List Device) (d : SDict String),
    addNodes bare sfx d nodes =
      (nodesPairs bare sfx nodes).map (fun l => l.foldl insPair d) := by
  intro nodes
  induction nodes with
  | nil => intro d; rfl
  | cons n ns ih =>
    intro d
    simp only [addNodes, nodesPairs, addNode_eq]
    rcases h : nodePairs bare sfx n with _ | l
    · rfl
    · simp only [Option.map_some']
      rw [ih]
      rcases h2 : nodesPairs bare sfx ns with _ | ls
      · rfl
      · simp [List.foldl_append]

theorem addService_eq (bare : Bool) (sfx : List String) (d : SDict String)
    (svc : Service) :
    addService bare sfx d svc = (servicePairs bare sfx svc).foldl insPair d := by
  obtain ⟨nm, addrs⟩ := svc
  rcases addrs with _ | ⟨a, as⟩
  · by_cases h : strLower nm = "" <;> simp [addService, servicePairs, h]
  · simp only [addService, servicePairs]
    generalize strLower nm = dn
    by_cases h : dn = "" ∨ a = ""
    · simp [h]
    · cases bare <;> simp [h, addSuffixed_eq, insPair, List.foldl_cons]

theorem services_fold_eq (bare : Bool) (sfx : List String) :
    ∀ (services : List Service) (d : SDict String),
    services.foldl (addService bare sfx) d =
      (services.flatMap (servicePairs bare sfx)).foldl insPair d := by
  intro services
  induction services with
  | nil => intro d; rfl
  | cons svc rest ih =>
    intro d
    rw [List.foldl_cons, addService_eq, ih]
    simp [List.foldl_append]

theorem get_records_eq (bare : Bool) (sfx : List String) (nodes : List Device)
    (services : List Service) :
    get_tailscale_records bare sfx nodes services =
      (desiredPairs bare sfx nodes services).map (fun l => l.foldl insPair []) := by
  unfold get_tailscale_records desiredPairs
  rw [addNodes_eq]
  rcases h : nodesPairs bare sfx nodes with _ | l
  · rfl
  · simp [services_fold_eq, List.foldl_append]

theorem foldIns_alookup :
    ∀ (l : List (String × String)) (d : SDict String) (k : String),
    alookup (l.foldl insPair d) k =
      match (l.filter (fun p => decide (p.1 = k))).getLast? with
      | some p => some p.2
      | none => alookup d k := by
  intro l
  induction l with
  | nil => intro d k; rfl
  | cons p rest ih =>
    intro d k
    rw [List.foldl_cons, ih]
    by_cases hp : p.1 = k
    · rw [List.filter_cons_of_pos (by simp [hp])]
      cases hh : rest.filter (fun p => decide (p.1 = k)) with
      | nil => simp [List.getLast?, alookup_ainsert, insPair, hp]
      | cons q qs =>
        rw [List.getLast?_cons_cons]
        rcases hq : (q :: qs).getLast? with _ | r
        · exact absurd (List.getLast?_eq_none_iff.mp hq) (by simp)
        · rfl
    · rw [List.filter_cons_of_neg (by simp [hp])]
      rcases hq : (rest.filter (fun p => decide (p.1 = k))).getLast? with _ | r
      · simp [hq, insPair, alookup_ainsert, hp]
      · rw [hq]

/-! ### Counting lemmas -/

theorem countP_ext {α : Type} {l : List α} {p q : α → Bool}
    (h : ∀ a ∈ l, p a = q a) : l.countP p = l.countP q := by
  induction l with
  | nil => rfl
  | cons a l ih =>
    rw [List.countP_cons, List.countP_cons, h a (List.mem_cons_self a l),
      ih (fun b hb => h b (List.mem_cons_of_mem a hb))]

/-- The number of creates the reconciler attempts is the number of
desired entries whose hostname is absent from the existing map. -/
theorem countP_creates (d : SDict String) (e : SDict ExistingInfo) (f : String) :
    (syncOps d e f).countP Op.isCreate =
      d.countP (fun p => (alookup e p.1).isNone) := by
  unfold syncOps
  rw [List.countP_append]
  have hdel : (e.flatMap (del_op d)).countP Op.isCreate = 0 :=
    countP_eq_zero_of_shape (fun op hop => by
      have := del_ops_only_delete hop
      cases op <;> simp_all [Op.isCreate, Op.isDelete])
  rw [hdel, Nat.add_zero]
  clear hdel
  induction d with
  | nil => rfl
  | cons p rest ih =>
    rw [List.flatMap_cons, List.countP_append, List.countP_cons, ih]
    rcases h : alookup e p.1 with _ | er
    · simp [cu_op, h, Op.isCreate, Nat.add_comm]
    · by_cases hip : er.ip ≠ p.2 <;>
        simp [cu_op, h, hip, Op.isCreate, Op.isUpdate]

theorem countP_split_at (bad : Op) (p : Op → Bool) (hbad : p bad = true) :
    ∀ l : List Op,
    l.countP (fun op => p op && decide (¬ op = bad)) +
      l.countP (fun op => decide (op = bad)) = l.countP p := by
  intro l
  induction l with
  | nil => rfl
  | cons a l ih =>
    rw [List.countP_cons, List.countP_cons, List.countP_cons]
    by_cases hab : a = bad
    · subst hab
      rw [if_neg (by simp [hbad]), if_pos (by simp), if_pos hbad]
      omega
    · cases hpa : p a
      · rw [if_neg (by simp [hpa]), if_neg (by simp [hab]), if_neg (by simp [hpa])]
        omega
      · rw [if_pos (by simp [hpa, hab]), if_neg (by simp [hab]), if_pos rfl]
        omega

/-! ### Effect of the attempted operations on the store -/

theorem alookup_filter_ne {α : Type} (rid : String) :
    ∀ (s : SDict α) (k : String),
    alookup (s.filter (fun p => decide (¬ p.1 = rid))) k =
      if rid = k then none else alookup s k := by
  intro s
  induction s with
  | nil => intro k; by_cases h : rid = k <;> simp [alookup, h]
  | cons q s ih =>
    intro k
    by_cases hq : q.1 = rid
    · rw [List.filter_cons_of_neg (by simp [hq]), ih]
      by_cases hk : rid = k
      · simp [hk]
      · have : ¬ q.1 = k := fun h => hk ((hq.symm.trans h).symm ▸ rfl)
        rw [if_neg hk, if_neg hk]
        simp [alookup, this]
    · rw [List.filter_cons_of_pos (by simp [hq])]
      by_cases hqk : q.1 = k
      · have : ¬ rid = k := fun h => hq (hqk.trans h.symm)
        simp [alookup, hqk, this]
      · simp only [alookup, hqk, if_neg, not_false_iff, ih]

theorem alookup_map_pair {α β : Type} (f : String → α → β) :
    ∀ (l : SDict α) (k : String),
    alookup (l.map (fun q => (q.1, f q.1 q.2))) k = (alookup l k).map (f k) := by
  intro l
  induction l with
  | nil => intro k; rfl
  | cons q l ih =>
    intro k
    by_cases hq : q.1 = k
    · simp [alookup, hq]
    · simp [alookup, hq, ih]

/-- Effect of the create/update pass on the store: every desired
hostname ends up mapped to its desired address, other keys untouched. -/
theorem cu_apply_lookup (e : SDict ExistingInfo) (f : String)
    (hinv : ∀ q ∈ e, q.2.id = q.1) :
    ∀ (d : SDict String) (s : SDict String),
    (d.map Prod.fst).Nodup →
    (∀ p ∈ d, ∀ er, alookup e p.1 = some er → er.ip = p.2 →
      alookup s p.1 = some p.2) →
    ∀ k, alookup ((d.flatMap (cu_op e f)).foldl apply_op s) k =
      match alookup d k with
      | some v => some v
      | none => alookup s k := by
  intro d
  induction d with
  | nil => intro s _ _ k; rfl
  | cons p rest ih =>
    intro s hnd hgood k
    rw [List.map_cons, List.nodup_cons] at hnd
    rw [List.flatMap_cons, List.foldl_append]
    have hs' : ∀ k', alookup ((cu_op e f p).foldl apply_op s) k' =
        if p.1 = k' then some p.2 else alookup s k' := by
      intro k'
      rcases h : alookup e p.1 with _ | er
      · simp [cu_op, h, apply_op, alookup_ainsert]
      · have hid : er.id = p.1 := hinv (p.1, er) (alookup_mem h)
        by_cases hip : er.ip ≠ p.2
        · simp [cu_op, h, hip, apply_op, hid, alookup_ainsert]
        · have heq : er.ip = p.2 := not_not.mp hip
          simp only [cu_op, h, heq, ne_eq, not_true_eq_false, if_false, List.foldl_nil]
          by_cases hpk : p.1 = k'
          · rw [if_pos hpk, ← hpk]
            exact hgood p (List.mem_cons_self p rest) er h heq
          · rw [if_neg hpk]
    rw [ih ((cu_op e f p).foldl apply_op s) hnd.2 ?good k]
    case good =>
      intro q hq er hlq hiq
      rw [hs', if_neg (fun (he : p.1 = q.1) =>
        hnd.1 (he.symm ▸ List.mem_map.mpr ⟨q, hq, rfl⟩))]
      exact hgood q (List.mem_cons_of_mem p hq) er hlq hiq
    by_cases hpk : p.1 = k
    · have hrest : alookup rest k = none :=
        alookup_eq_none.mpr (fun q hq he =>
          hnd.1 ((he.trans hpk.symm) ▸ List.mem_map.mpr ⟨q, hq, rfl⟩))
      rw [hrest]
      simp [alookup, hpk, hs']
    · rw [hs', if_neg hpk]
      simp [alookup, hpk]

/-- The delete pass does not touch hostnames that are still desired. -/
theorem del_apply_keep (d : SDict String) :
    ∀ (e : SDict ExistingInfo) (s : SDict String),
    (∀ q ∈ e, q.2.id = q.1) →
    ∀ k v, alookup d k = some v →
      alookup ((e.flatMap (del_op d)).foldl apply_op s) k = alookup s k := by
  intro e
  induction e with
  | nil => intro s _ k v _; rfl
  | cons q rest ih =>
    intro s hinv k v hk
    rw [List.flatMap_cons, List.foldl_append]
    have hid : q.2.id = q.1 := hinv q (List.mem_cons_self q rest)
    have hrest := ih ((del_op d q).foldl apply_op s)
      (fun r hr => hinv r (List.mem_cons_of_mem q hr)) k v hk
    rw [hrest]
    by_cases hq : alookup d q.1 = none
    · have hne : ¬ q.1 = k := fun he => by rw [he, hk] at hq; exact Option.noConfusion hq
      simp only [del_op, hq, if_pos, List.foldl_cons, List.foldl_nil, apply_op, hid]
      rw [alookup_filter_ne]
      exact if_neg hne
    · simp [del_op, hq]

/-- The delete pass removes every fetched hostname that is no longer
desired (and never resurrects an absent key). -/
theorem del_apply_remove (d : SDict String) :
    ∀ (e : SDict ExistingInfo) (s : SDict String),
    (∀ q ∈ e, q.2.id = q.1) →
    ∀ k, alookup d k = none →
      ((∃ q ∈ e, q.1 = k) ∨ alookup s k = none) →
      alookup ((e.flatMap (del_op d)).foldl apply_op s) k = none := by
  intro e
  induction e with
  | nil =>
    intro s _ k _ hor
    rcases hor with ⟨q, hq, _⟩ | h
    · simp at hq
    · exact h
  | cons q rest ih =>
    intro s hinv k hk hor
    rw [List.flatMap_cons, List.foldl_append]
    have hid : q.2.id = q.1 := hinv q (List.mem_cons_self q rest)
    have hinv' : ∀ r ∈ rest, r.2.id = r.1 := fun r hr => hinv r (List.mem_cons_of_mem q hr)
    by_cases hqk : q.1 = k
    · have hqd : alookup d q.1 = none := hqk ▸ hk
      refine ih _ hinv' k hk (Or.inr ?_)
      simp only [del_op, hqd, if_pos, List.foldl_cons, List.foldl_nil, apply_op, hid]
      rw [alookup_filter_ne, if_pos hqk]
    · rcases hor with ⟨r, hr, hrk⟩ | hs
      · rcases List.mem_cons.mp hr with h1 | h1
        · exact absurd (h1 ▸ hrk) hqk
        · exact ih _ hinv' k hk (Or.inl ⟨r, h1, hrk⟩)
      · refine ih _ hinv' k hk (Or.inr ?_)
        by_cases hqd : alookup d q.1 = none
        · simp only [del_op, hqd, if_pos, List.foldl_cons, List.foldl_nil, apply_op, hid]
          rw [alookup_filter_ne, if_neg hqk]
          exact hs
        · simpa [del_op, hqd] using hs

/-- After an apply-mode run in which every operation succeeded, the
store contents agree exactly with the desired mapping. -/
theorem store_after_lookup (desired : SDict String) (existing_map : SDict ExistingInfo)
    (folder_id : String)
    (hd : (desired.map Prod.fst).Nodup)
    (hinv : ∀ q ∈ existing_map, q.2.id = q.1) :
    ∀ k, alookup (store_after desired existing_map folder_id) k = alookup desired k := by
  intro k
  unfold store_after syncOps
  rw [List.foldl_append]
  have hstore0 : ∀ k', alookup (existing_map.map (fun q => (q.1, q.2.ip))) k' =
      (alookup existing_map k').map ExistingInfo.ip :=
    fun k' => alookup_map_pair (fun _ v => v.ip) existing_map k'
  have hcu := cu_apply_lookup existing_map folder_id hinv desired
    (existing_map.map (fun q => (q.1, q.2.ip))) hd
    (fun p _ er hl hi => by rw [hstore0, hl]; simp [hi])
  rcases hk : alookup desired k with _ | v
  · rcases he : alookup existing_map k with _ | er
    · refine del_apply_remove desired existing_map _ hinv k hk (Or.inr ?_)
      rw [hcu k, hk]
      show alookup (existing_map.map (fun q => (q.1, q.2.ip))) k = none
      rw [hstore0, he]
      rfl
    · refine del_apply_remove desired existing_map _ hinv k hk (Or.inl ?_)
      exact ⟨(k, er), alookup_mem he, rfl⟩
  · rw [del_apply_keep desired existing_map _ hinv k v hk, hcu k, hk]

/-! ### Properties of the existing-map construction -/

theorem ainsert_mem_cases {α : Type} {m : SDict α} {k : String} {v : α} {q : String × α}
    (h : q ∈ ainsert m k v) : q = (k, v) ∨ q ∈ m := by
  induction m with
  | nil => simpa [ainsert] using h
  | cons p m ih =>
    by_cases hp : p.1 = k
    · rw [ainsert, if_pos hp] at h
      rcases List.mem_cons.mp h with h1 | h1
      · exact Or.inl h1
      · exact Or.inr (List.mem_cons_of_mem p h1)
    · rw [ainsert, if_neg hp] at h
      rcases List.mem_cons.mp h with h1 | h1
      · exact Or.inr (h1 ▸ List.mem_cons_self p m)
      · rcases ih h1 with h2 | h2
        · exact Or.inl h2
        · exact Or.inr (List.mem_cons_of_mem p h2)

theorem bem_mem_id :
    ∀ (rules : List CtrlRule) (m : SDict ExistingInfo),
    (∀ q ∈ m, q.2.id = q.1) →
    ∀ q ∈ rules.foldl (fun m r =>
      match r.PK with
      | none => m
      | some h => if h = "" then m else ainsert m h ⟨h, r.via⟩) m,
    q.2.id = q.1 := by
  intro rules
  induction rules with
  | nil => intro m hm q hq; exact hm q hq
  | cons r rest ih =>
    intro m hm q hq
    rw [List.foldl_cons] at hq
    rcases hr : r.PK with _ | h
    · simp only [hr] at hq
      exact ih m hm q hq
    · simp only [hr] at hq
      by_cases hh : h = ""
      · rw [if_pos hh] at hq
        exact ih m hm q hq
      · rw [if_neg hh] at hq
        refine ih _ ?_ q hq
        intro p hp
        rcases ainsert_mem_cases hp with h1 | h1
        · rw [h1]
        · exact hm p h1

theorem bem_isSome :
    ∀ (rules : List CtrlRule) (m : SDict ExistingInfo) (h : String),
    ((alookup (rules.foldl (fun m r =>
      match r.PK with
      | none => m
      | some hh => if hh = "" then m else ainsert m hh ⟨hh, r.via⟩) m) h).isSome
      ↔ (∃ r ∈ rules, r.PK = some h ∧ ¬ h = "") ∨ (alookup m h).isSome) := by
  intro rules
  induction rules with
  | nil => intro m h; simp
  | cons r rest ih =>
    intro m h
    rw [List.foldl_cons]
    rcases hr : r.PK with _ | hh
    · simp only [hr]
      rw [ih]
      simp only [List.mem_cons]
      constructor
      · rintro (⟨r', hr', hpk, hne⟩ | hm)
        · exact Or.inl ⟨r', Or.inr hr', hpk, hne⟩
        · exact Or.inr hm
      · rintro (⟨r', (rfl | hr'), hpk, hne⟩ | hm)
        · rw [hr] at hpk; exact Option.noConfusion hpk
        · exact Or.inl ⟨r', hr', hpk, hne⟩
        · exact Or.inr hm
    · simp only [hr]
      by_cases hhe : hh = ""
      · rw [if_pos hhe, ih]
        simp only [List.mem_cons]
        constructor
        · rintro (⟨r', hr', hpk, hne⟩ | hm)
          · exact Or.inl ⟨r', Or.inr hr', hpk, hne⟩
          · exact Or.inr hm
        · rintro (⟨r', (rfl | hr'), hpk, hne⟩ | hm)
          · rw [hr] at hpk
            exact absurd (hhe ▸ (Option.some.inj hpk)).symm hne
          · exact Or.inl ⟨r', hr', hpk, hne⟩
          · exact Or.inr hm
      · rw [if_neg hhe, ih]
        by_cases hk : hh = h
        · subst hk
          simp only [List.mem_cons]
          constructor
          · rintro (⟨r', hr', hpk, hne⟩ | _)
            · exact Or.inl ⟨r', Or.inr hr', hpk, hne⟩
            · exact Or.inl ⟨r, Or.inl rfl, hr, hhe⟩
          · intro _
            rw [alookup_ainsert, if_pos rfl]
            exact Or.inr rfl
        · have : (alookup (ainsert m hh ⟨hh, r.via⟩) h).isSome = (alookup m h).isSome := by
            rw [alookup_ainsert, if_neg hk]
          rw [this]
          simp only [List.mem_cons]
          constructor
          · rintro (⟨r', hr', hpk, hne⟩ | hm)
            · exact Or.inl ⟨r', Or.inr hr', hpk, hne⟩
            · exact Or.inr hm
          · rintro (⟨r', (rfl | hr'), hpk, hne⟩ | hm)
            · rw [hr] at hpk
              exact absurd (Option.some.inj hpk) hk
            · exact Or.inl ⟨r', hr', hpk, hne⟩
            · exact Or.inr hm

theorem bem_hostnames_irrelevant :
    ∀ (rules : List CtrlRule) (m : SDict ExistingInfo) (f : CtrlRule → List String),
    (rules.map (fun r => { r with hostnames := f r })).foldl (fun m r =>
      match r.PK with
      | none => m
      | some hh => if hh = "" then m else ainsert m hh ⟨hh, r.via⟩) m =
    rules.foldl (fun m r =>
      match r.PK with
      | none => m
      | some hh => if hh = "" then m else ainsert m hh ⟨hh, r.via⟩) m := by
  intro rules
  induction rules with
  | nil => intro m f; rfl
  | cons r rest ih =>
    intro m f
    rw [List.map_cons, List.foldl_cons, List.foldl_cons]
    exact ih _ f

theorem flatMap_eq_nil_of_forall {α β : Type} {l : List α} {f : α → List β}
    (h : ∀ x ∈ l, f x = []) : l.flatMap f = [] := by
  induction l with
  | nil => rfl
  | cons a l ih =>
    rw [List.flatMap_cons, h a (List.mem_cons_self a l), List.nil_append]
    exact ih (fun x hx => h x (List.mem_cons_of_mem a hx))

/-! ### The claims -/

/-- C1: for a fixed desired mapping and existing-rule snapshot, with
every store call succeeding in apply mode, the created/updated/deleted
counts of a dry-run reconciliation equal those of an apply-mode
reconciliation; in dry-run mode the store is never contacted (empty
traffic) and each mutating helper reports success immediately. -/
theorem dry_run_apply_equiv (desired : SDict String)
    (existing_map : SDict ExistingInfo) (folder_id : String) (store : Op → Bool)
    (hs : ∀ op, store op = true) :
    (sync_loop true store desired existing_map folder_id).created =
      (sync_loop false store desired existing_map folder_id).created ∧
    (sync_loop true store desired existing_map folder_id).updated =
      (sync_loop false store desired existing_map folder_id).updated ∧
    (sync_loop true store desired existing_map folder_id).deleted =
      (sync_loop false store desired existing_map folder_id).deleted ∧
    (sync_loop true store desired existing_map folder_id).trace = [] ∧
    (∀ h ip f, create_controld_record store h ip f true = (true, [])) ∧
    (∀ rid h ip f, update_controld_record store rid h ip f true = (true, [])) ∧
    (∀ rid h, delete_controld_record store rid h true = (true, [])) := by
  simp only [sync_loop_spec]
  refine ⟨?_, ?_, ?_, rfl, fun _ _ _ => rfl, fun _ _ _ _ => rfl, fun _ _ => rfl⟩ <;>
    exact countP_ext (fun op _ => by simp [effSucc, hs])

/-- Witness for C1 at a concrete snapshot. -/
theorem dry_run_apply_equiv_witness :
    (sync_loop true (fun _ => true) [("a", "1"), ("b", "2")]
        [("b", ⟨"b", "9"⟩), ("c", ⟨"c", "3"⟩)] "f").created =
      (sync_loop false (fun _ => true) [("a", "1"), ("b", "2")]
        [("b", ⟨"b", "9"⟩), ("c", ⟨"c", "3"⟩)] "f").created ∧
    (sync_loop true (fun _ => true) [("a", "1"), ("b", "2")]
        [("b", ⟨"b", "9"⟩), ("c", ⟨"c", "3"⟩)] "f").trace = [] :=
  ⟨(dry_run_apply_equiv [("a", "1"), ("b", "2")]
      [("b", ⟨"b", "9"⟩), ("c", ⟨"c", "3"⟩)] "f" (fun _ => true) (fun _ => rfl)).1,
   (dry_run_apply_equiv [("a", "1"), ("b", "2")]
      [("b", ⟨"b", "9"⟩), ("c", ⟨"c", "3"⟩)] "f" (fun _ => true)
      (fun _ => rfl)).2.2.2.1⟩

/-- C2: the reconciler issues an update (with the existing rule's id and
the folder id) exactly for hostnames in both maps with differing
addresses, a create exactly for desired hostnames absent from the
existing map, a delete (by rule id) exactly for existing hostnames
absent from the desired map, and no operation at all for a hostname
present in both with equal addresses. -/
theorem reconciler_diff_exact (desired : SDict String)
    (existing_map : SDict ExistingInfo) (folder_id : String)
    (hd : (desired.map Prod.fst).Nodup)
    (he : (existing_map.map Prod.fst).Nodup) :
    (∀ rid h ip,
      Op.update rid h ip folder_id ∈ syncOps desired existing_map folder_id ↔
      ∃ er, alookup desired h = some ip ∧ alookup existing_map h = some er ∧
        er.id = rid ∧ er.ip ≠ ip) ∧
    (∀ h ip,
      Op.create h ip folder_id ∈ syncOps desired existing_map folder_id ↔
      alookup desired h = some ip ∧ alookup existing_map h = none) ∧
    (∀ rid h,
      Op.delete rid h ∈ syncOps desired existing_map folder_id ↔
      ∃ er, alookup existing_map h = some er ∧ er.id = rid ∧
        alookup desired h = none) ∧
    (∀ h ip er, alookup desired h = some ip → alookup existing_map h = some er →
      er.ip = ip →
      ∀ op ∈ syncOps desired existing_map folder_id, ¬ op.hostname = h) := by
  refine ⟨?_, ?_, ?_, ?_⟩
  · intro rid h ip
    constructor
    · intro hop
      rcases List.mem_append.mp hop with hcu | hdel
      · rcases List.mem_flatMap.mp hcu with ⟨p, hp, hcup⟩
        rcases mem_cu_op.mp hcup with ⟨_, heq⟩ | ⟨er, hlook, hne, heq⟩
        · exact Op.noConfusion heq
        · simp only [Op.update.injEq] at heq
          obtain ⟨h1, h2, h3, _⟩ := heq
          subst h1; subst h2; subst h3
          exact ⟨er, alookup_of_mem_nodup hd hp, hlook, rfl, hne⟩
      · rcases List.mem_flatMap.mp hdel with ⟨q, hq, hdq⟩
        rcases mem_del_op.mp hdq with ⟨_, heq⟩
        exact Op.noConfusion heq
    · rintro ⟨er, hd1, he1, hid, hne⟩
      refine List.mem_append.mpr (Or.inl (List.mem_flatMap.mpr
        ⟨(h, ip), alookup_mem hd1, mem_cu_op.mpr (Or.inr ⟨er, he1, hne, ?_⟩)⟩))
      rw [hid]
  · intro h ip
    constructor
    · intro hop
      rcases List.mem_append.mp hop with hcu | hdel
      · rcases List.mem_flatMap.mp hcu with ⟨p, hp, hcup⟩
        rcases mem_cu_op.mp hcup with ⟨hnone, heq⟩ | ⟨er, _, _, heq⟩
        · simp only [Op.create.injEq] at heq
          obtain ⟨h1, h2, _⟩ := heq
          subst h1; subst h2
          exact ⟨alookup_of_mem_nodup hd hp, hnone⟩
        · exact Op.noConfusion heq
      · rcases List.mem_flatMap.mp hdel with ⟨q, hq, hdq⟩
        rcases mem_del_op.mp hdq with ⟨_, heq⟩
        exact Op.noConfusion heq
    · rintro ⟨hd1, he1⟩
      exact List.mem_append.mpr (Or.inl (List.mem_flatMap.mpr
        ⟨(h, ip), alookup_mem hd1, mem_cu_op.mpr (Or.inl ⟨he1, rfl⟩)⟩))
  · intro rid h
    constructor
    · intro hop
      rcases List.mem_append.mp hop with hcu | hdel
      · rcases List.mem_flatMap.mp hcu with ⟨p, hp, hcup⟩
        rcases mem_cu_op.mp hcup with ⟨_, heq⟩ | ⟨er, _, _, heq⟩
        · exact Op.noConfusion heq
        · exact Op.noConfusion heq
      · rcases List.mem_flatMap.mp hdel with ⟨q, hq, hdq⟩
        rcases mem_del_op.mp hdq with ⟨hnone, heq⟩
        simp only [Op.delete.injEq] at heq
        obtain ⟨h1, h2⟩ := heq
        subst h1; subst h2
        exact ⟨q.2, alookup_of_mem_nodup he hq, rfl, hnone⟩
    · rintro ⟨er, he1, hid, hd1⟩
      refine List.mem_append.mpr (Or.inr (List.mem_flatMap.mpr
        ⟨(h, er), alookup_mem he1, mem_del_op.mpr ⟨hd1, ?_⟩⟩))
      rw [hid]
  · intro h ip er hd1 he1 hip op hop heq
    rcases List.mem_append.mp hop with hcu | hdel
    · rcases List.mem_flatMap.mp hcu with ⟨p, hp, hcup⟩
      rcases mem_cu_op.mp hcup with ⟨hnone, heqop⟩ | ⟨er', hlook, hne, heqop⟩
      · rw [heqop] at heq
        simp only [Op.hostname] at heq
        rw [heq] at hnone
        rw [hnone] at he1
        exact Option.noConfusion he1
      · rw [heqop] at heq
        simp only [Op.hostname] at heq
        rw [heq] at hlook
        have her : er' = er := Option.some.inj (hlook.symm.trans he1)
        have hpd : alookup desired p.1 = some p.2 := alookup_of_mem_nodup hd hp
        rw [heq] at hpd
        have hp2 : p.2 = ip := Option.some.inj (hpd.symm.trans hd1)
        exact hne (by rw [her, hip, hp2])
    · rcases List.mem_flatMap.mp hdel with ⟨q, hq, hdq⟩
      rcases mem_del_op.mp hdq with ⟨hnone, heqop⟩
      rw [heqop] at heq
      simp only [Op.hostname] at heq
      rw [heq] at hnone
      rw [hnone] at hd1
      exact Option.noConfusion hd1

/-- Witness for C2: in a concrete diff, the update for the changed
hostname "b" is attempted with the existing rule's id. -/
theorem reconciler_diff_exact_witness :
    Op.update "b" "b" "2" "f" ∈
      syncOps [("a", "1"), ("b", "2"), ("c", "3")]
        [("b", ⟨"b", "9"⟩), ("d", ⟨"d", "4"⟩)] "f" :=
  ((reconciler_diff_exact [("a", "1"), ("b", "2"), ("c", "3")]
      [("b", ⟨"b", "9"⟩), ("d", ⟨"d", "4"⟩)] "f" (by decide) (by decide)).1
    "b" "b" "2").mpr ⟨⟨"b", "9"⟩, by decide, by decide, rfl, by decide⟩

/-- C3 (code-bug evidence): a device entry whose `addresses` key is
present but holds an empty list makes the desired-record builder abort
with `IndexError` (modelled as `none`) instead of being skipped, while
every other missing/empty name or address is skipped silently and
leaves the rest of the mapping intact. -/
theorem device_empty_addresses_crash :
    get_tailscale_records false ["ts"] [⟨"server1", some []⟩] [] = none ∧
    get_tailscale_records false ["ts"]
        [⟨"", some ["100.64.0.1"]⟩, ⟨"noip", some [""]⟩, ⟨"defaulted", none⟩,
         ⟨"good", some ["100.64.0.2"]⟩]
        [⟨"", ["100.64.0.3"]⟩, ⟨"svc", []⟩] =
      some [("good.ts", "100.64.0.2")] := by decide

/-- C4: suffix expansion on the spec's example entry, with and without
the bare-hostname flag. -/
theorem suffix_expansion_example :
    get_tailscale_records false ["ts", "vpn.example.com"]
        [⟨"server1", some ["100.64.0.1"]⟩] [] =
      some [("server1.ts", "100.64.0.1"),
            ("server1.vpn.example.com", "100.64.0.1")] ∧
    alookup [("server1.ts", "100.64.0.1"),
             ("server1.vpn.example.com", "100.64.0.1")] "server1" = none ∧
    get_tailscale_records true ["ts", "vpn.example.com"]
        [⟨"server1", some ["100.64.0.1"]⟩] [] =
      some [("server1", "100.64.0.1"), ("server1.ts", "100.64.0.1"),
            ("server1.vpn.example.com", "100.64.0.1")] := by decide

/-- C5: last-write-wins — in the built mapping every hostname is bound
to the address of the last insertion for it in the program's insertion
sequence (devices before services, each in input order), so of two
colliding inventory entries the later one wins. -/
theorem last_write_wins (bare : Bool) (sfx : List String) (nodes : List Device)
    (services : List Service) (d : SDict String) (pairs : List (String × String))
    (hrec : get_tailscale_records bare sfx nodes services = some d)
    (hpairs : desiredPairs bare sfx nodes services = some pairs) :
    ∀ h, alookup d h =
      ((pairs.filter (fun p => decide (p.1 = h))).getLast?).map Prod.snd := by
  intro h
  have hb := get_records_eq bare sfx nodes services
  rw [hrec, hpairs] at hb
  have hd : d = pairs.foldl insPair [] := Option.some.inj hb
  rw [hd, foldIns_alookup]
  cases (pairs.filter (fun p => decide (p.1 = h))).getLast? <;> rfl

/-- Witness for C5: two devices collide on hostname "a.ts"; the later
one's address wins. -/
theorem last_write_wins_witness :
    alookup [("a.ts", "2")] "a.ts" =
      ((([("a.ts", "1"), ("a.ts", "2")] : List (String × String)).filter
        (fun p => decide (p.1 = "a.ts"))).getLast?).map Prod.snd :=
  last_write_wins false ["ts"]
    [⟨"a", some ["1"]⟩, ⟨"A.tailnet.ts.net", some ["2"]⟩] []
    [("a.ts", "2")] [("a.ts", "1"), ("a.ts", "2")]
    (by decide) (by decide) "a.ts"

/-- C6: idempotence — if an apply-mode run succeeds on every operation
and the store reflects those operations, a second reconciliation
against the updated store attempts nothing and reports zero creates,
updates and deletes. -/
theorem sync_idempotent (desired : SDict String) (existing_map : SDict ExistingInfo)
    (folder_id : String)
    (hd : (desired.map Prod.fst).Nodup)
    (hinv : ∀ q ∈ existing_map, q.2.id = q.1)
    (store : Op → Bool) :
    sync_loop false store desired
      (refetched_map (store_after desired existing_map folder_id)) folder_id =
      ⟨0, 0, 0, []⟩ := by
  have hsa := store_after_lookup desired existing_map folder_id hd hinv
  have hre : ∀ k,
      alookup (refetched_map (store_after desired existing_map folder_id)) k =
        (alookup desired k).map (fun ip => (⟨k, ip⟩ : ExistingInfo)) := by
    intro k
    unfold refetched_map
    rw [alookup_map_pair (fun k ip => (⟨k, ip⟩ : ExistingInfo)), hsa]
  have hcu0 : desired.flatMap
      (cu_op (refetched_map (store_after desired existing_map folder_id))
        folder_id) = [] := by
    refine flatMap_eq_nil_of_forall (fun p hp => ?_)
    have h1 : alookup desired p.1 = some p.2 := alookup_of_mem_nodup hd hp
    have h2 := hre p.1
    rw [h1] at h2
    simp [cu_op, h2]
  have hdel0 : (refetched_map (store_after desired existing_map folder_id)).flatMap
      (del_op desired) = [] := by
    refine flatMap_eq_nil_of_forall (fun q hq => ?_)
    unfold refetched_map at hq
    rcases List.mem_map.mp hq with ⟨r, hr, rfl⟩
    rcases mem_alookup_isSome hr with ⟨v, hv⟩
    have h1 : alookup desired r.1 = some v := by rw [← hsa r.1]; exact hv
    simp [del_op, h1]
  have hops : syncOps desired
      (refetched_map (store_after desired existing_map folder_id)) folder_id = [] := by
    unfold syncOps
    rw [hcu0, hdel0]
    rfl
  rw [sync_loop_spec, hops]
  rfl

/-- Witness for C6 at a concrete snapshot (one update, one delete). -/
theorem sync_idempotent_witness :
    sync_loop false (fun _ => true) [("a", "1")]
      (refetched_map (store_after [("a", "1")]
        [("a", ⟨"a", "9"⟩), ("b", ⟨"b", "2"⟩)] "f")) "f" = ⟨0, 0, 0, []⟩ :=
  sync_idempotent [("a", "1")] [("a", ⟨"a", "9"⟩), ("b", ⟨"b", "2"⟩)] "f"
    (by decide) (by decide) (fun _ => true)

/-- C7 counterexample: a configuration whose folder display name is a
placeholder (`your-...`) nevertheless passes validation, and the run
proceeds (no exit before network activity) — so not every required
value listed in the spec is validated. -/
theorem folder_placeholder_not_validated :
    badValue "your-folder-name" = true ∧
    validate_config ⟨"tskey-api-k3y", "example.com", "api-token-1", "profile1",
      "your-folder-name", ["ts"], false⟩ = [] ∧
    (sync_dns_records ⟨"tskey-api-k3y", "example.com", "api-token-1", "profile1",
        "your-folder-name", ["ts"], false⟩ true (fun _ => true) true "t" [] []
        "f").isSome = true := by decide

/-- C7 (amended): the validation gate checks exactly the four
credential / identifier variables — the run exits before any network
call iff one of `TAILSCALE_API_KEY`, `TAILSCALE_TAILNET_ID`,
`CONTROLD_API_TOKEN`, `CONTROLD_PROFILE_ID` is empty or a placeholder;
the folder display name, DNS suffix list and bare-hostname flag are
never validated. -/
theorem validation_gate_iff (c : Config) (dry_run : Bool) (store : Op → Bool)
    (writeOk : Bool) (timestamp : String) (desired : SDict String)
    (existing_rules : List CtrlRule) (folder_id : String) :
    sync_dns_records c dry_run store writeOk timestamp desired existing_rules
        folder_id = none ↔
      (badValue c.TAILSCALE_API_KEY || badValue c.TAILSCALE_TAILNET_ID ||
       badValue c.CONTROLD_API_TOKEN || badValue c.CONTROLD_PROFILE_ID) = true := by
  unfold sync_dns_records validate_config
  cases h1 : badValue c.TAILSCALE_API_KEY <;>
    cases h2 : badValue c.TAILSCALE_TAILNET_ID <;>
      cases h3 : badValue c.CONTROLD_API_TOKEN <;>
        cases h4 : badValue c.CONTROLD_PROFILE_ID <;>
          simp

/-- C8: if exactly one attempted create fails (the `bad` operation) and
every other call succeeds, the reconciler still attempts the entire
operation sequence, the updated/deleted counts match an all-success
run, and the created count is one less than the number of desired
hostnames absent from the existing map. -/
theorem partial_failure_isolation (desired : SDict String)
    (existing_map : SDict ExistingInfo) (folder_id : String) (bad : Op)
    (hd : (desired.map Prod.fst).Nodup)
    (hmem : bad ∈ syncOps desired existing_map folder_id)
    (hbad : bad.isCreate = true)
    (honce : (syncOps desired existing_map folder_id).countP
      (fun op => decide (op = bad)) = 1) :
    (sync_loop false (fun op => decide (¬ op = bad)) desired existing_map
        folder_id).trace = syncOps desired existing_map folder_id ∧
    (sync_loop false (fun op => decide (¬ op = bad)) desired existing_map
        folder_id).created + 1 =
      desired.countP (fun p => (alookup existing_map p.1).isNone) ∧
    (sync_loop false (fun op => decide (¬ op = bad)) desired existing_map
        folder_id).updated =
      (sync_loop false (fun _ => true) desired existing_map folder_id).updated ∧
    (sync_loop false (fun op => decide (¬ op = bad)) desired existing_map
        folder_id).deleted =
      (sync_loop false (fun _ => true) desired existing_map folder_id).deleted := by
  simp only [sync_loop_spec]
  refine ⟨rfl, ?_, ?_, ?_⟩
  · show (syncOps desired existing_map folder_id).countP
      (fun op => op.isCreate && decide (¬ op = bad)) + 1 =
      desired.countP (fun p => (alookup existing_map p.1).isNone)
    have hsplit := countP_split_at bad Op.isCreate hbad
      (syncOps desired existing_map folder_id)
    rw [honce] at hsplit
    rw [hsplit]
    exact countP_creates desired existing_map folder_id
  · refine countP_ext (fun op _ => ?_)
    show (op.isUpdate && decide (¬ op = bad)) = (op.isUpdate && true)
    by_cases hob : op = bad
    · subst hob
      have h5 : op.isUpdate = false := by
        cases op <;> simp_all [Op.isCreate, Op.isUpdate]
      simp [h5]
    · simp [hob]
  · refine countP_ext (fun op _ => ?_)
    show (op.isDelete && decide (¬ op = bad)) = (op.isDelete && true)
    by_cases hob : op = bad
    · subst hob
      have h5 : op.isDelete = false := by
        cases op <;> simp_all [Op.isCreate, Op.isDelete]
      simp [h5]
    · simp [hob]

/-- Witness for C8: with the create of "a" failing, created is one less
than the two genuinely new hostnames. -/
theorem partial_failure_isolation_witness :
    (sync_loop false (fun op => decide (¬ op = Op.create "a" "1" "f"))
        [("a", "1"), ("b", "2"), ("c", "3")]
        [("b", ⟨"b", "9"⟩), ("d", ⟨"d", "4"⟩)] "f").created + 1 =
      List.countP (fun p =>
        (alookup ([("b", ExistingInfo.mk "b" "9"),
          ("d", ExistingInfo.mk "d" "4")] : SDict ExistingInfo) p.1).isNone)
        [("a", "1"), ("b", "2"), ("c", "3")] :=
  (partial_failure_isolation [("a", "1"), ("b", "2"), ("c", "3")]
    [("b", ⟨"b", "9"⟩), ("d", ⟨"d", "4"⟩)] "f" (Op.create "a" "1" "f")
    (by decide) (by decide) (by decide) (by decide)).2.1

/-- C9: the backup is attempted exactly in live mode with a non-empty
fetched rule list; a failing write yields `none` (a warning, no
exception), and the reconciliation outcome does not depend on the
backup write at all. -/
theorem backup_policy (c : Config) (dry_run : Bool) (store : Op → Bool)
    (writeOk : Bool) (timestamp : String) (desired : SDict String)
    (existing_rules : List CtrlRule) (folder_id : String)
    (hc : validate_config c = []) :
    ∀ fr, sync_dns_records c dry_run store writeOk timestamp desired
        existing_rules folder_id = some fr →
      (fr.backup.isSome ↔ (dry_run = false ∧ existing_rules ≠ [])) ∧
      create_backup false timestamp existing_rules folder_id = none ∧
      fr.recon = sync_loop dry_run store desired
        (build_existing_map existing_rules) folder_id := by
  intro fr hfr
  unfold sync_dns_records at hfr
  rw [if_pos hc] at hfr
  obtain rfl := (Option.some.inj hfr).symm
  refine ⟨?_, rfl, rfl⟩
  cases dry_run <;> by_cases hrules : existing_rules = [] <;>
    simp [hrules, create_backup]

/-- Witness for C9: in live mode with one existing rule the backup is
attempted. -/
theorem backup_policy_witness :
    create_backup false "t" [⟨some "a", [], "1"⟩] "f" = none :=
  (backup_policy ⟨"key1", "tn1", "tok1", "prof1", "Tailscale", ["ts"], false⟩
    false (fun _ => true) false "t" [] [⟨some "a", [], "1"⟩] "f" (by decide)
    ⟨some none, ⟨0, 0, 1, [Op.delete "a" "a"]⟩⟩ (by decide)).2.1

/-- C10: every entry of the existing map satisfies id = hostname = PK;
rules with a missing or empty PK are dropped; the rules' `hostnames`
arrays are never consulted; and the PK value is exactly what is passed
as the rule id of every update and delete. -/
theorem existing_map_pk (rules : List CtrlRule) :
    (∀ h info, alookup (build_existing_map rules) h = some info → info.id = h) ∧
    (∀ h, (alookup (build_existing_map rules) h).isSome ↔
      ∃ r ∈ rules, r.PK = some h ∧ ¬ h = "") ∧
    (∀ f : CtrlRule → List String,
      build_existing_map (rules.map (fun r => { r with hostnames := f r })) =
        build_existing_map rules) ∧
    (∀ (desired : SDict String) (folder_id rid h ip : String),
      Op.update rid h ip folder_id ∈
          syncOps desired (build_existing_map rules) folder_id → rid = h) ∧
    (∀ (desired : SDict String) (folder_id rid h : String),
      Op.delete rid h ∈
          syncOps desired (build_existing_map rules) folder_id → rid = h) := by
  have hmemid : ∀ q ∈ build_existing_map rules, q.2.id = q.1 :=
    bem_mem_id rules [] (fun q hq => absurd hq (List.not_mem_nil q))
  refine ⟨?_, ?_, ?_, ?_, ?_⟩
  · intro h info hl
    exact hmemid (h, info) (alookup_mem hl)
  · intro h
    have := bem_isSome rules [] h
    simpa [alookup] using this
  · intro f
    exact bem_hostnames_irrelevant rules [] f
  · intro desired folder_id rid h ip hop
    rcases List.mem_append.mp hop with hcu | hdel
    · rcases List.mem_flatMap.mp hcu with ⟨p, hp, hcup⟩
      rcases mem_cu_op.mp hcup with ⟨_, heq⟩ | ⟨er, hlook, _, heq⟩
      · exact Op.noConfusion heq
      · simp only [Op.update.injEq] at heq
        obtain ⟨h1, h2, _, _⟩ := heq
        rw [h1, h2]
        exact hmemid (p.1, er) (alookup_mem hlook)
    · rcases List.mem_flatMap.mp hdel with ⟨q, hq, hdq⟩
      rcases mem_del_op.mp hdq with ⟨_, heq⟩
      exact Op.noConfusion heq
  · intro desired folder_id rid h hop
    rcases List.mem_append.mp hop with hcu | hdel
    · rcases List.mem_flatMap.mp hcu with ⟨p, hp, hcup⟩
      rcases mem_cu_op.mp hcup with ⟨_, heq⟩ | ⟨er, _, _, heq⟩
      · exact Op.noConfusion heq
      · exact Op.noConfusion heq
    · rcases List.mem_flatMap.mp hdel with ⟨q, hq, hdq⟩
      rcases mem_del_op.mp hdq with ⟨_, heq⟩
      simp only [Op.delete.injEq] at heq
      obtain ⟨h1, h2⟩ := heq
      rw [h1, h2]
      exact hmemid q hq

/-- Witness for C10 on a concrete rule list. -/
theorem existing_map_pk_witness :
    (ExistingInfo.mk "a.ts" "1").id = "a.ts" :=
  (existing_map_pk [⟨some "a.ts", ["x.example"], "1"⟩, ⟨none, [], "2"⟩,
    ⟨some "", [], "3"⟩]).1 "a.ts" ⟨"a.ts", "1"⟩ (by decide)
